import Mathlib

/-!
Verification of the fsync client core: the entry reconciliation model
(`entryType`, `entryStatus`, `entrySize`, `entryMtime`), the progress
tracking store (`createProgressesStore` in the svelte client), and the
operation dispatcher (`showContextMenu`). Each TypeScript function is
embedded as a Lean definition; stateful store code becomes an explicit
state-and-event step function.
-/

namespace Fsync

/-- Aggregate statistics attached to directory metadata
(`stat?: {data, nodes}` in the daemon payload; only `data` is read). -/
structure DirStat where
  data : Nat
  nodes : Nat
deriving DecidableEq, Repr

/-- Embedding of `types.Metadata`: a tagged union of directory metadata (with optional
aggregate stat) and regular-file metadata (size and nullable mtime). -/
inductive Metadata
  | directory (stat : Option DirStat)
  | regular (size : Nat) (mtime : Option Nat)
deriving DecidableEq, Repr

/-- Per-subtree reconciliation statistics carried by a `sync` entry. -/
structure SubtreeStats where
  nodes : Nat
  sync : Nat
  conflicts : Nat
deriving DecidableEq, Repr

/-- Embedding of `types.Entry`: discriminated in the TypeScript by field presence
(`'local' in entry`, `'remote' in entry`, else `entry.sync`). -/
inductive Entry
  | localOnly (md : Metadata)
  | remoteOnly (md : Metadata)
  | synced (lo ro : Metadata) (conflict : Bool) (stats : SubtreeStats)
deriving DecidableEq, Repr

/-- The classifier functions accept `types.Entry | types.TreeEntry` and
unwrap any value carrying an `entry` field (`'entry' in entry`), so the
argument is either a bare `Entry` or a located wrapper around another
such value. -/
inductive EntryArg
  | plain (e : Entry)
  | wrapped (path name : String) (entry : EntryArg)
deriving DecidableEq, Repr

/-- Embedding of `types.TreeEntry`: an `Entry` located at a path with a display name. -/
structure TreeEntry where
  path : String
  name : String
  entry : Entry
deriving DecidableEq, Repr

/-- Result values of `entryType` (the embedding of `types.EntryType`). -/
inductive EntryType
  | directory
  | regular
  | inconsistent
deriving DecidableEq, Repr

/-- Embeds `metadataEntryType` from `model.ts`: directory when the metadata has a
`directory` field, regular otherwise. -/
def metadataEntryType : Metadata → EntryType
  | .directory _ => .directory
  | .regular _ _ => .regular

/-- Embeds `entryType` from `model.ts`: unwrap `entry` wrappers, classify
one-sided entries by their own metadata, and compare declared types on a
`sync` entry, yielding `inconsistent` on disagreement. -/
def entryType : EntryArg → EntryType
  | .wrapped _ _ inner => entryType inner
  | .plain (.localOnly md) => metadataEntryType md
  | .plain (.remoteOnly md) => metadataEntryType md
  | .plain (.synced lo ro _ _) =>
      let l := metadataEntryType lo
      let r := metadataEntryType ro
      if l ≠ r then .inconsistent else l

/-- The four-valued `EntryStatus` exported by `model.ts` in
`clients/ui` and `clients/ui-tauri`. -/
inductive EntryStatus
  | statusLocal
  | statusRemote
  | statusSync
  | statusConflict
deriving DecidableEq, Repr

/-- Embeds `entryStatus` (four-way variant): unwrap wrappers, then `local`,
`remote`, or for `sync` entries `conflict` when the conflict flag is set
and `sync` otherwise. -/
def entryStatus : EntryArg → EntryStatus
  | .wrapped _ _ inner => entryStatus inner
  | .plain (.localOnly _) => .statusLocal
  | .plain (.remoteOnly _) => .statusRemote
  | .plain (.synced _ _ conflict _) =>
      if conflict then .statusConflict else .statusSync

/-- Result type `EntrySize`: a scalar byte count, or a divergent local/remote pair. -/
inductive EntrySize
  | scalar (n : Nat)
  | divergent (lo ro : Nat)
deriving DecidableEq, Repr

/-- Embeds `metadataSize` from `model.ts`: a directory's aggregate data size
(`stat?.data ?? 0`), or a regular file's byte size. -/
def metadataSize : Metadata → Nat
  | .directory stat => (stat.map DirStat.data).getD 0
  | .regular size _ => size

/-- Embeds `entrySize` from `model.ts`: unwrap wrappers; one-sided entries give
their own size; a `sync` entry collapses to a scalar when the local and
remote sizes agree and otherwise returns the divergent pair. -/
def entrySize : EntryArg → EntrySize
  | .wrapped _ _ inner => entrySize inner
  | .plain (.localOnly md) => .scalar (metadataSize md)
  | .plain (.remoteOnly md) => .scalar (metadataSize md)
  | .plain (.synced lo ro _ _) =>
      let l := metadataSize lo
      let r := metadataSize ro
      if l = r then .scalar l else .divergent l r

/-- Result type `EntryMtime`: a scalar nullable timestamp, or a divergent pair of
nullable timestamps. -/
inductive EntryMtime
  | scalar (m : Option Nat)
  | divergent (lo ro : Option Nat)
deriving DecidableEq, Repr

/-- Embeds `metadataMtime` from `model.ts`: directories have no mtime (null);
regular files report their nullable mtime. -/
def metadataMtime : Metadata → Option Nat
  | .directory _ => none
  | .regular _ mtime => mtime

/-- Embeds `entryMtime` from `model.ts`: unwrap wrappers; one-sided entries give
their own mtime; a `sync` entry collapses to a scalar when local and
remote mtimes agree and otherwise returns the divergent pair. -/
def entryMtime : EntryArg → EntryMtime
  | .wrapped _ _ inner => entryMtime inner
  | .plain (.localOnly md) => .scalar (metadataMtime md)
  | .plain (.remoteOnly md) => .scalar (metadataMtime md)
  | .plain (.synced lo ro _ _) =>
      let l := metadataMtime lo
      let r := metadataMtime ro
      if l = r then .scalar l else .divergent l r

/-- Iterated wrapper application: `n` layers of `{path, name, entry: _}`
around an argument. -/
def iterWrap (p nm : String) : Nat → EntryArg → EntryArg
  | 0, w => w
  | n + 1, w => .wrapped p nm (iterWrap p nm n w)

/-- The six-valued `EntryStatus` consumed by `context-menu.ts` and the
`NavEntryRow` component (`local | remote | sync | syncFull | conflict |
conflictFull`). -/
inductive EntryStatusFull
  | statusLocal
  | statusRemote
  | statusSync
  | statusSyncFull
  | statusConflict
  | statusConflictFull
deriving DecidableEq, Repr

/-- Whether a `sync` entry represents a directory: both sides declare
directory metadata. -/
def syncedIsDir (lo ro : Metadata) : Bool :=
  metadataEntryType lo == .directory && metadataEntryType ro == .directory

/-- Modelled from the spec: the canonical six-way `entryStatus`. Its
definition (the `model.ts` exporting
`'local'|'remote'|'sync'|'syncFull'|'conflict'|'conflictFull'`) is absent
from the source snapshot — only callers comparing against `'syncFull'` and
`'conflictFull'` are present — so it is written from the spec's words:
`LocalOnly`→`Local`, `RemoteOnly`→`Remote`; for `Synced`, `conflict`
true on a leaf → `Conflict`, `subtreeStats.conflicts > 0` on a directory
→ `ConflictFull`; else `SyncFull` when `subtreeStats.sync ==
subtreeStats.nodes`; else `Sync`. -/
def entryStatusFull : Entry → EntryStatusFull
  | .localOnly _ => .statusLocal
  | .remoteOnly _ => .statusRemote
  | .synced lo ro conflict stats =>
      if syncedIsDir lo ro then
        if stats.conflicts > 0 then .statusConflictFull
        else if stats.sync = stats.nodes then .statusSyncFull
        else .statusSync
      else
        if conflict then .statusConflict
        else if stats.sync = stats.nodes then .statusSyncFull
        else .statusSync

/-- Embedding of `types.ResolutionMethod`: the eight conflict resolution strategies. -/
inductive ResolutionMethod
  | replaceOlderByNewer
  | replaceNewerByOlder
  | replaceLocalByRemote
  | replaceRemoteByLocal
  | deleteOlder
  | deleteNewer
  | deleteLocal
  | deleteRemote
deriving DecidableEq, Repr

/-- The eight resolution items appended to the resolve submenu, in the
order `showContextMenu` builds them. -/
def resolutionMethods : List ResolutionMethod :=
  [.replaceOlderByNewer, .replaceNewerByOlder, .replaceLocalByRemote,
   .replaceRemoteByLocal, .deleteOlder, .deleteNewer, .deleteLocal,
   .deleteRemote]

/-- A menu entry produced by `showContextMenu`: the Open item, a
Sync/SyncDeep item (`deep` distinguishes "Synchronize all" on a
directory from "Synchronize" on a leaf), or the Resolve/ResolveDeep
submenu with its resolution methods. -/
inductive MenuEntry
  | openItem (path : String)
  | syncItem (path : String) (deep : Bool)
  | resolveSub (path : String) (deep : Bool) (methods : List ResolutionMethod)
deriving DecidableEq, Repr

/-- Embeds `showContextMenu` from `context-menu.ts`, as the list of menu entries
it appends: `none` models the early `return` (menu construction aborted,
no actions) on an inconsistent entry type. Open is appended when the
entry has a local representation; Sync/SyncDeep when the status is not
`syncFull`; the resolve submenu when the status is `conflict` or
`conflictFull`. -/
def showContextMenu (entry : TreeEntry) (etype : EntryType)
    (status : EntryStatusFull) : Option (List MenuEntry) :=
  if etype = .inconsistent then none
  else
    let hasLocal :=
      match entry.entry with
      | .localOnly _ => true
      | .remoteOnly _ => false
      | .synced _ _ _ _ => true
    let menu0 : List MenuEntry :=
      if hasLocal then [.openItem entry.path] else []
    let menu1 : List MenuEntry :=
      menu0 ++
        (if status ≠ .statusSyncFull then
          [.syncItem entry.path (etype == .directory)]
        else [])
    let menu2 : List MenuEntry :=
      menu1 ++
        (if status = .statusConflict ∨ status = .statusConflictFull then
          [.resolveSub entry.path (etype == .directory) resolutionMethods]
        else [])
    some menu2

/-- Embedding of `types.Progress`: a finished operation, or an in-flight done/total
unit fraction. -/
inductive Progress
  | done
  | inFlight (progress total : Nat)
deriving DecidableEq, Repr

/-- Embedding of `types.PathProgress`: the progress of one operation on one path. -/
structure PathProgress where
  path : String
  progress : Progress
deriving DecidableEq, Repr

/-- State of one `createProgressesStore` instance: whether a store-wide
`globDoneCb` was supplied at construction, the subscriber set (listeners
identified by number), the tracked `progresses`, whether the `setInterval`
timer handle is live, and the keys of the `doneCb` map (the paths with a
registered one-shot completion callback). -/
structure ProgressStore where
  hasGlobCb : Bool
  subscribers : List Nat
  progresses : List PathProgress
  interval : Bool
  doneCb : List String
deriving DecidableEq, Repr

/-- Observable effects of one store operation: a listener invoked with a
snapshot, the store-wide `globDoneCb` firing, or a per-path `doneCb`
firing. -/
inductive StoreEvent
  | notify (subscriber : Nat) (snapshot : List PathProgress)
  | globDone
  | pathDone (path : String)
deriving DecidableEq, Repr

/-- Embeds `set` from `createProgressesStore`: replace the tracked progresses and
invoke every subscriber with the new snapshot. -/
def setProgresses (s : ProgressStore) (ps : List PathProgress) :
    ProgressStore × List StoreEvent :=
  ({ s with progresses := ps },
   s.subscribers.map fun id => .notify id ps)

/-- The `pathes` computation of `checkDone`: start from the previous
paths and, for each freshly polled record, filter out its path — the
paths that vanished from the poll result. -/
def vanishedPaths (old new : List PathProgress) : List String :=
  new.foldl (fun acc pp => acc.filter fun path => path ≠ pp.path)
    (old.map PathProgress.path)

/-- The `pathes.forEach` loop of `checkDone`: for each vanished path in
order, when the `doneCb` map holds a callback for it, invoke the callback
and delete the map entry. Returns the remaining callback keys and the
fired events. -/
def firePathCbs (doneCb : List String) : List String → List String × List StoreEvent
  | [] => (doneCb, [])
  | p :: rest =>
      if p ∈ doneCb then
        let next := firePathCbs (doneCb.filter fun q => q ≠ p) rest
        (next.1, .pathDone p :: next.2)
      else
        firePathCbs doneCb rest

/-- Embeds `checkDone` from `createProgressesStore`: compute the vanished paths;
when some vanished and a store-wide callback was supplied, fire it; then
fire and discard every vanished path's registered callback. -/
def checkDone (s : ProgressStore) (newProgresses : List PathProgress) :
    ProgressStore × List StoreEvent :=
  let pathes := vanishedPaths s.progresses newProgresses
  let globEvents : List StoreEvent :=
    if pathes.length ≠ 0 ∧ s.hasGlobCb then [.globDone] else []
  let fired := firePathCbs s.doneCb pathes
  ({ s with doneCb := fired.1 }, globEvents ++ fired.2)

/-- One firing of the `setInterval` callback installed by `startListen`,
given the poll's outcome. The callback only runs while the timer is live.
A resolved poll stops the timer when the result is empty, then runs
`checkDone` and `set`. A rejected poll aborts the callback at the `await`:
nothing in the store changes and the timer keeps running. -/
def tick (s : ProgressStore) (result : Except Unit (List PathProgress)) :
    ProgressStore × List StoreEvent :=
  if s.interval = false then (s, [])
  else
    match result with
    | .error _ => (s, [])
    | .ok newProgresses =>
        let s1 := if newProgresses.length = 0 then { s with interval := false } else s
        let checked := checkDone s1 newProgresses
        let setRes := setProgresses checked.1 newProgresses
        (setRes.1, checked.2 ++ setRes.2)

/-- Embeds `subscribe` from `createProgressesStore`: register the subscriber
(a `Set`, so re-adding an existing one is a no-op) and invoke it
immediately with the current snapshot. -/
def subscribe (s : ProgressStore) (id : Nat) : ProgressStore × List StoreEvent :=
  ({ s with subscribers :=
      if id ∈ s.subscribers then s.subscribers
      else s.subscribers ++ [id] },
   [.notify id s.progresses])

/-- The unsubscribe closure returned by `subscribe`: delete the
subscriber and, when none remain, `stopListen`. -/
def unsubscribe (s : ProgressStore) (id : Nat) : ProgressStore × List StoreEvent :=
  let subs := s.subscribers.filter fun x => x ≠ id
  if subs.length = 0 then
    ({ s with subscribers := subs, interval := false }, [])
  else
    ({ s with subscribers := subs }, [])

/-- Embeds `add` from `createProgressesStore`: update every record with the same
path in place, or append the record when none matches; register the
optional one-shot callback under the record's path (`Map.set`);
broadcast; `startListen`. -/
def add (s : ProgressStore) (record : PathProgress) (cb : Bool) :
    ProgressStore × List StoreEvent :=
  let progresses1 :=
    if record.path ∈ s.progresses.map PathProgress.path then
      s.progresses.map fun p =>
        if p.path = record.path then { p with progress := record.progress } else p
    else
      s.progresses ++ [record]
  let doneCb1 :=
    if cb then
      if record.path ∈ s.doneCb then s.doneCb
      else s.doneCb ++ [record.path]
    else s.doneCb
  let setRes := setProgresses { s with progresses := progresses1, doneCb := doneCb1 } progresses1
  ({ setRes.1 with interval := true }, setRes.2)

/-- Embeds `remove` from `createProgressesStore`: drop the record for the path,
fire and discard its callback when one is registered, broadcast. -/
def remove (s : ProgressStore) (path : String) : ProgressStore × List StoreEvent :=
  let progresses1 := s.progresses.filter fun p => p.path ≠ path
  let cbEvents : List StoreEvent :=
    if path ∈ s.doneCb then [.pathDone path] else []
  let doneCb1 := s.doneCb.filter fun q => q ≠ path
  let setRes := setProgresses { s with progresses := progresses1, doneCb := doneCb1 } progresses1
  (setRes.1, cbEvents ++ setRes.2)

/-- Embeds `check` from `createProgressesStore`, given the poll's outcome: on
success, `set` the polled progresses and `startListen` when non-empty,
`stopListen` when empty. A rejected poll aborts at the `await` with the
store unchanged. -/
def check (s : ProgressStore) (result : Except Unit (List PathProgress)) :
    ProgressStore × List StoreEvent :=
  match result with
  | .error _ => (s, [])
  | .ok progress =>
      let setRes := setProgresses s progress
      if progress.length > 0 then
        ({ setRes.1 with interval := true }, setRes.2)
      else
        ({ setRes.1 with interval := false }, setRes.2)

/-- The store interface operations plus timer ticks, for transition
reasoning over whole operation sequences. -/
inductive StoreOp
  | subscribeOp (id : Nat)
  | unsubscribeOp (id : Nat)
  | addOp (record : PathProgress) (cb : Bool)
  | removeOp (path : String)
  | tickOp (result : Except Unit (List PathProgress))
  | checkOp (result : Except Unit (List PathProgress))
deriving Repr

/-- Apply one store operation. -/
def stepStore (s : ProgressStore) : StoreOp → ProgressStore × List StoreEvent
  | .subscribeOp id => subscribe s id
  | .unsubscribeOp id => unsubscribe s id
  | .addOp record cb => add s record cb
  | .removeOp path => remove s path
  | .tickOp result => tick s result
  | .checkOp result => check s result

/-- A freshly constructed store, before its seeding `check()` resolves:
no subscribers, no tracked progresses, no timer, no callbacks. -/
def initStore (gcb : Bool) : ProgressStore :=
  { hasGlobCb := gcb, subscribers := [], progresses := [],
    interval := false, doneCb := [] }

/-- Apply a sequence of `add`/`remove` calls (the operations claim C7
ranges over). -/
def applyAddRemove (s : ProgressStore) : List StoreOp → ProgressStore
  | [] => s
  | op :: rest =>
      match op with
      | .addOp record cb => applyAddRemove (add s record cb).1 rest
      | .removeOp path => applyAddRemove (remove s path).1 rest
      | _ => applyAddRemove s rest

/-- Count of one event in an event list. -/
def countEvent (e : StoreEvent) : List StoreEvent → Nat
  | [] => 0
  | x :: rest => (if x = e then 1 else 0) + countEvent e rest

/-! ## Claim theorems -/

/-- C8: `entryType` returns Directory or Regular for one-sided entries
according to that side's metadata, and on a Synced entry compares the
local and remote declared types, returning Inconsistent exactly when
they disagree and the common type otherwise. -/
theorem entryType_classifies (md lo ro : Metadata) (c : Bool) (st : SubtreeStats) :
    entryType (.plain (.localOnly md)) = metadataEntryType md
    ∧ entryType (.plain (.remoteOnly md)) = metadataEntryType md
    ∧ entryType (.plain (.synced lo ro c st)) =
        (if metadataEntryType lo = metadataEntryType ro then metadataEntryType lo
         else .inconsistent)
    ∧ (entryType (.plain (.synced lo ro c st)) = .inconsistent
        ↔ metadataEntryType lo ≠ metadataEntryType ro) := by
  have h3 : entryType (.plain (.synced lo ro c st)) =
      (if metadataEntryType lo = metadataEntryType ro then metadataEntryType lo
       else .inconsistent) := by
    by_cases h : metadataEntryType lo = metadataEntryType ro <;> simp [entryType, h]
  refine ⟨rfl, rfl, h3, ?_⟩
  rw [h3]
  by_cases h : metadataEntryType lo = metadataEntryType ro
  · simp only [h, if_pos]
    simp only [h, ne_eq, not_true_eq_false, iff_false]
    cases ro <;> simp [metadataEntryType]
  · simp [h]

/-- C4: on a Synced entry, `entrySize` (and likewise `entryMtime`)
returns a single scalar exactly when the local and remote values are
equal, and otherwise the pair containing exactly the local and the
remote value; in particular local 100 / remote 150 yields the divergent
pair and local 100 / remote 100 the scalar 100. -/
theorem entrySize_mtime_collapse (lo ro : Metadata) (c : Bool) (st : SubtreeStats) :
    entrySize (.plain (.synced lo ro c st)) =
      (if metadataSize lo = metadataSize ro then .scalar (metadataSize lo)
       else .divergent (metadataSize lo) (metadataSize ro))
    ∧ ((∃ n, entrySize (.plain (.synced lo ro c st)) = .scalar n)
        ↔ metadataSize lo = metadataSize ro)
    ∧ entryMtime (.plain (.synced lo ro c st)) =
      (if metadataMtime lo = metadataMtime ro then .scalar (metadataMtime lo)
       else .divergent (metadataMtime lo) (metadataMtime ro))
    ∧ ((∃ m, entryMtime (.plain (.synced lo ro c st)) = .scalar m)
        ↔ metadataMtime lo = metadataMtime ro)
    ∧ entrySize (.plain (.synced (.regular 100 none) (.regular 150 none) c st)) =
        .divergent 100 150
    ∧ entrySize (.plain (.synced (.regular 100 none) (.regular 100 none) c st)) =
        .scalar 100 := by
  refine ⟨?_, ?_, ?_, ?_, by simp [entrySize, metadataSize], by simp [entrySize, metadataSize]⟩
  · by_cases h : metadataSize lo = metadataSize ro <;> simp [entrySize, h]
  · by_cases h : metadataSize lo = metadataSize ro <;> simp [entrySize, h]
  · by_cases h : metadataMtime lo = metadataMtime ro <;> simp [entryMtime, h]
  · by_cases h : metadataMtime lo = metadataMtime ro <;> simp [entryMtime, h]

/-- C9: the classifier functions unwrap nested `{entry: ...}` wrappers
recursively at any depth: on an Entry wrapped in `n` layers, each of
`entryType`, `entryStatus`, `entrySize` and `entryMtime` returns the
same result as on the innermost Entry. -/
theorem classifiers_unwrap_any_depth (n : Nat) (p nm : String) (e : Entry) :
    entryType (iterWrap p nm n (.plain e)) = entryType (.plain e)
    ∧ entryStatus (iterWrap p nm n (.plain e)) = entryStatus (.plain e)
    ∧ entrySize (iterWrap p nm n (.plain e)) = entrySize (.plain e)
    ∧ entryMtime (iterWrap p nm n (.plain e)) = entryMtime (.plain e) := by
  induction n with
  | zero => exact ⟨rfl, rfl, rfl, rfl⟩
  | succ k ih =>
      exact ⟨by rw [iterWrap, entryType, ih.1],
             by rw [iterWrap, entryStatus, ih.2.1],
             by rw [iterWrap, entrySize, ih.2.2.1],
             by rw [iterWrap, entryMtime, ih.2.2.2]⟩

/-- C1: the six-way status classifier sends LocalOnly to Local and
RemoteOnly to Remote; on a Synced entry it returns Conflict (leaf with
the conflict flag set) or ConflictFull (directory with
`subtreeStats.conflicts > 0`) exactly in those cases, otherwise SyncFull
exactly when `subtreeStats.sync = subtreeStats.nodes`, and Sync
otherwise. -/
theorem entryStatusFull_spec (md lo ro : Metadata) (c : Bool) (st : SubtreeStats) :
    entryStatusFull (.localOnly md) = .statusLocal
    ∧ entryStatusFull (.remoteOnly md) = .statusRemote
    ∧ ((entryStatusFull (.synced lo ro c st) = .statusConflict
        ∨ entryStatusFull (.synced lo ro c st) = .statusConflictFull)
        ↔ ((syncedIsDir lo ro = false ∧ c = true)
           ∨ (syncedIsDir lo ro = true ∧ 0 < st.conflicts)))
    ∧ (syncedIsDir lo ro = false → c = true →
        entryStatusFull (.synced lo ro c st) = .statusConflict)
    ∧ (syncedIsDir lo ro = true → 0 < st.conflicts →
        entryStatusFull (.synced lo ro c st) = .statusConflictFull)
    ∧ (¬((syncedIsDir lo ro = false ∧ c = true)
          ∨ (syncedIsDir lo ro = true ∧ 0 < st.conflicts)) →
        (entryStatusFull (.synced lo ro c st) = .statusSyncFull ↔ st.sync = st.nodes))
    ∧ (¬((syncedIsDir lo ro = false ∧ c = true)
          ∨ (syncedIsDir lo ro = true ∧ 0 < st.conflicts)) →
        st.sync ≠ st.nodes →
        entryStatusFull (.synced lo ro c st) = .statusSync) := by
  refine ⟨rfl, rfl, ?_, ?_, ?_, ?_, ?_⟩ <;>
    rcases hd : syncedIsDir lo ro <;> rcases c <;>
      rcases hc : st.conflicts with _ | k <;>
        by_cases hs : st.sync = st.nodes <;>
          simp [entryStatusFull, hd, hc, hs]

/-- Concrete tree entry used by the dispatcher witnesses. -/
def sampleTree : TreeEntry :=
  { path := "/p", name := "p",
    entry := .synced (.regular 1 none) (.regular 1 none) false ⟨1, 1, 0⟩ }

/-- C5: the dispatcher never offers the Sync/SyncDeep item when the
status is SyncFull, and aborts menu construction with no actions at all
(hence no resolution submenu) when the entry type is Inconsistent. -/
theorem showContextMenu_safety (entry : TreeEntry) (etype : EntryType)
    (status : EntryStatusFull) :
    (status = .statusSyncFull →
      ∀ items, showContextMenu entry etype status = some items →
        ∀ p d, MenuEntry.syncItem p d ∉ items)
    ∧ (etype = .inconsistent → showContextMenu entry etype status = none) := by
  constructor
  · intro hst items hmenu p d
    subst hst
    by_cases he : etype = EntryType.inconsistent
    · simp [showContextMenu, he] at hmenu
    · simp only [showContextMenu, he, if_neg, if_false, reduceCtorEq] at hmenu
      simp only [ne_eq, not_true_eq_false, if_false, reduceCtorEq, false_or,
        List.append_nil, Option.some_inj] at hmenu
      subst hmenu
      rcases entry.entry <;> simp
  · intro he
    simp [showContextMenu, he]

/-- Witness for C5 at concrete inputs: a SyncFull regular entry's menu is
just the Open item, which contains no sync item; an Inconsistent entry
yields no menu. -/
theorem showContextMenu_safety_witness :
    (MenuEntry.syncItem "/p" false ∉ [MenuEntry.openItem "/p"])
    ∧ showContextMenu sampleTree .inconsistent .statusConflictFull = none :=
  ⟨(showContextMenu_safety sampleTree .regular .statusSyncFull).1 rfl
      [.openItem "/p"] (by decide) "/p" false,
   (showContextMenu_safety sampleTree .inconsistent .statusConflictFull).2 rfl⟩

/-- Witness for C1 at concrete inputs: a directory pair with one conflict
classifies ConflictFull, a conflicting leaf classifies Conflict, and a
fully synced leaf classifies SyncFull. -/
theorem entryStatusFull_spec_witness :
    entryStatusFull (.synced (.directory none) (.directory none) false ⟨5, 3, 1⟩)
        = .statusConflictFull
    ∧ entryStatusFull (.synced (.regular 9 none) (.regular 9 none) true ⟨1, 0, 1⟩)
        = .statusConflict
    ∧ entryStatusFull (.synced (.regular 9 none) (.regular 9 none) false ⟨1, 1, 0⟩)
        = .statusSyncFull :=
  ⟨(entryStatusFull_spec (.directory none) (.directory none) (.directory none) false
      ⟨5, 3, 1⟩).2.2.2.2.1 (by decide) (by decide),
   (entryStatusFull_spec (.regular 9 none) (.regular 9 none) (.regular 9 none) true
      ⟨1, 0, 1⟩).2.2.2.1 (by decide) rfl,
   ((entryStatusFull_spec (.regular 9 none) (.regular 9 none) (.regular 9 none) false
      ⟨1, 1, 0⟩).2.2.2.2.2.1 (by decide)).mpr rfl⟩

/-! ## Progress store lemmas -/

theorem countEvent_append (e : StoreEvent) (a b : List StoreEvent) :
    countEvent e (a ++ b) = countEvent e a + countEvent e b := by
  induction a with
  | nil => simp [countEvent]
  | cons x rest ih =>
      simp only [List.cons_append, countEvent, List.append_eq, ih, Nat.add_assoc]

theorem countEvent_notifyList (e : StoreEvent) (subs : List Nat)
    (ps : List PathProgress) (h : ∀ id, e ≠ .notify id ps) :
    countEvent e (subs.map fun id => StoreEvent.notify id ps) = 0 := by
  induction subs with
  | nil => rfl
  | cons a rest ih =>
      have hne : ¬(StoreEvent.notify a ps = e) := fun hc => h a hc.symm
      simp only [List.map_cons, countEvent, if_neg hne, ih, Nat.zero_add]

theorem firePathCbs_globDone_count (pathes : List String) :
    ∀ doneCb, countEvent .globDone (firePathCbs doneCb pathes).2 = 0 := by
  induction pathes with
  | nil => intro doneCb; rfl
  | cons q rest ih =>
      intro doneCb
      by_cases hq : q ∈ doneCb
      · simp only [firePathCbs, if_pos hq, countEvent, reduceCtorEq, if_false,
          ih, Nat.add_zero]
      · simp only [firePathCbs, if_neg hq, ih]

theorem mem_filter_ne (p q : String) (l : List String) :
    (p ∈ l.filter fun x => x ≠ q) ↔ (p ∈ l ∧ p ≠ q) := by
  simp [List.mem_filter]

theorem firePathCbs_pathDone_count (p : String) (pathes : List String) :
    ∀ doneCb, countEvent (.pathDone p) (firePathCbs doneCb pathes).2 =
      if p ∈ pathes ∧ p ∈ doneCb then 1 else 0 := by
  induction pathes with
  | nil => intro doneCb; simp [firePathCbs, countEvent]
  | cons q rest ih =>
      intro doneCb
      by_cases hq : q ∈ doneCb
      · have hrest := ih (doneCb.filter fun x => x ≠ q)
        simp only [firePathCbs, if_pos hq, countEvent, hrest]
        by_cases hpq : p = q
        · subst hpq
          have h1 : ¬(p ∈ rest ∧ p ∈ doneCb.filter fun x => x ≠ p) := by
            simp [mem_filter_ne]
          simp [h1, hq]
        · have h2 : ¬(StoreEvent.pathDone q = StoreEvent.pathDone p) := by
            simp only [StoreEvent.pathDone.injEq]
            exact fun h => hpq h.symm
          rw [if_neg h2]
          by_cases hin : p ∈ rest <;>
            by_cases hdc : p ∈ doneCb <;>
              simp [hin, hdc, mem_filter_ne, hpq]
      · have hrest := ih doneCb
        simp only [firePathCbs, if_neg hq, hrest]
        by_cases hpq : p = q
        · subst hpq; simp [hq]
        · by_cases hin : p ∈ rest <;> simp [hin, hpq]

theorem firePathCbs_mem (p : String) (pathes : List String) :
    ∀ doneCb, p ∈ (firePathCbs doneCb pathes).1 ↔ (p ∈ doneCb ∧ p ∉ pathes) := by
  induction pathes with
  | nil => intro doneCb; simp [firePathCbs]
  | cons q rest ih =>
      intro doneCb
      by_cases hq : q ∈ doneCb
      · have hrest := ih (doneCb.filter fun x => x ≠ q)
        simp only [firePathCbs, hq, if_pos] at hrest ⊢
        rw [hrest]
        by_cases hpq : p = q
        · subst hpq; simp
        · simp [List.mem_filter, hpq]
      · have hrest := ih doneCb
        simp only [firePathCbs, hq, if_neg, if_false] at hrest ⊢
        rw [hrest]
        by_cases hpq : p = q
        · subst hpq; simp [hq]
        · simp [hpq]

/-- Concrete store used by the store witnesses: a live timer, one
subscriber, one tracked path with a registered per-path callback, and a
store-wide callback. -/
def sampleStore : ProgressStore :=
  { hasGlobCb := true, subscribers := [7],
    progresses := [{ path := "a", progress := .inFlight 1 2 }],
    interval := true, doneCb := ["a"] }

/-- C2: when a poll returns the empty set while at least one path is
tracked, the timer stops, the store-wide callback (when supplied at
construction) fires exactly once, and the per-path callback of every
vanished path fires exactly once and is discarded. -/
theorem tick_empty_poll_completes (s : ProgressStore)
    (hrun : s.interval = true) (hne : s.progresses ≠ []) :
    (tick s (.ok [])).1.interval = false
    ∧ countEvent .globDone (tick s (.ok [])).2 = (if s.hasGlobCb then 1 else 0)
    ∧ ∀ p, p ∈ s.progresses.map PathProgress.path → p ∈ s.doneCb →
        countEvent (.pathDone p) (tick s (.ok [])).2 = 1
        ∧ p ∉ (tick s (.ok [])).1.doneCb := by
  have hpaths : s.progresses.map PathProgress.path ≠ [] := by
    simpa using hne
  have htick : tick s (.ok []) =
      ({ s with
          interval := false
          doneCb := (firePathCbs s.doneCb (s.progresses.map PathProgress.path)).1
          progresses := [] },
        ((if ¬(s.progresses.map PathProgress.path).length = 0 ∧ s.hasGlobCb = true
            then [StoreEvent.globDone] else [])
          ++ (firePathCbs s.doneCb (s.progresses.map PathProgress.path)).2)
          ++ s.subscribers.map fun id => StoreEvent.notify id []) := by
    simp only [tick, hrun]
    rfl
  refine ⟨by rw [htick], ?_, ?_⟩
  · rw [htick]
    rcases hg : s.hasGlobCb <;>
      simp [countEvent_append, countEvent, firePathCbs_globDone_count,
        countEvent_notifyList, hg, List.length_eq_zero, hpaths, hne]
  · intro p hp hcb
    constructor
    · rw [htick]
      rcases hg : s.hasGlobCb <;>
        simp [countEvent_append, countEvent, firePathCbs_pathDone_count,
          countEvent_notifyList, hg, List.length_eq_zero, hpaths, hne, hp, hcb]
    · rw [htick]
      simp only [firePathCbs_mem]
      exact fun hmem => hmem.2 hp

/-- Witness for C2 at `sampleStore`: its poll tick with an empty result
stops the timer, fires the store-wide callback once, fires the callback
of the vanished path `a` once and discards it. -/
theorem tick_empty_poll_completes_witness :
    sampleStore.interval = true
    ∧ sampleStore.progresses ≠ []
    ∧ (tick sampleStore (.ok [])).1.interval = false
    ∧ countEvent .globDone (tick sampleStore (.ok [])).2 = 1
    ∧ countEvent (.pathDone "a") (tick sampleStore (.ok [])).2 = 1
    ∧ "a" ∉ (tick sampleStore (.ok [])).1.doneCb := by
  have h := tick_empty_poll_completes sampleStore rfl (by decide)
  have hp := h.2.2 "a" (by decide) (by decide)
  exact ⟨rfl, by decide, h.1, by simpa using h.2.1, hp.1, hp.2⟩

/-- Concrete store refuting C3: timer live, one tracked path. -/
def errStore : ProgressStore :=
  { hasGlobCb := false, subscribers := [0],
    progresses := [{ path := "a", progress := .inFlight 0 1 }],
    interval := true, doneCb := [] }

/-- C3 counterexample: on a store with a live timer, a failed poll does
not stop the timer — the interval is still running afterwards, so the
store keeps polling. -/
theorem tick_error_counterexample :
    errStore.interval = true
    ∧ (tick errStore (.error ())).1.interval = true := by
  exact ⟨rfl, rfl⟩

/-- C3 amended: a failed poll leaves the store completely unchanged and
fires no callback or notification: the rejection aborts the interval
callback before `stopListen` can run, the timer keeps running, and the
store continues polling (likewise for the seeding `check`). -/
theorem tick_error_keeps_state (s : ProgressStore) (e : Unit) :
    tick s (.error e) = (s, []) ∧ check s (.error e) = (s, []) := by
  constructor
  · unfold tick
    split <;> rfl
  · rfl

/-- C6: `subscribe` invokes the new listener synchronously with the
current snapshot (possibly empty) and nothing else; when the returned
unsubscribe token removes the last listener, the timer stops even with
paths still tracked. -/
theorem subscribe_notifies_and_last_unsubscribe_stops
    (s : ProgressStore) (id : Nat) :
    (subscribe s id).2 = [.notify id s.progresses]
    ∧ ((s.subscribers.filter fun x => x ≠ id) = [] →
        (unsubscribe s id).1.interval = false) := by
  constructor
  · rfl
  · intro h
    have hcond : (s.subscribers.filter fun x => x ≠ id).length = 0 := by
      rw [h]
      rfl
    simp only [unsubscribe]
    rw [if_pos hcond]

/-- Witness for C6 at `sampleStore` (which still tracks path `a`):
subscribing listener 9 notifies it immediately with the snapshot, and
unsubscribing listener 7 — the last one — stops the timer. -/
theorem subscribe_notifies_witness :
    (subscribe sampleStore 9).2 =
      [.notify 9 [{ path := "a", progress := .inFlight 1 2 }]]
    ∧ (unsubscribe sampleStore 7).1.interval = false :=
  ⟨(subscribe_notifies_and_last_unsubscribe_stops sampleStore 9).1,
   (subscribe_notifies_and_last_unsubscribe_stops sampleStore 7).2 (by decide)⟩

theorem add_progresses (s : ProgressStore) (r : PathProgress) (cb : Bool) :
    (add s r cb).1.progresses =
      (if r.path ∈ s.progresses.map PathProgress.path then
        s.progresses.map fun p =>
          if p.path = r.path then { p with progress := r.progress } else p
      else s.progresses ++ [r]) := rfl

theorem add_paths_map (s : ProgressStore) (r : PathProgress) (cb : Bool) :
    (add s r cb).1.progresses.map PathProgress.path =
      (if r.path ∈ s.progresses.map PathProgress.path then
        s.progresses.map PathProgress.path
      else s.progresses.map PathProgress.path ++ [r.path]) := by
  rw [add_progresses]
  by_cases h : r.path ∈ s.progresses.map PathProgress.path
  · rw [if_pos h, if_pos h, List.map_map]
    refine List.map_congr_left ?_
    intro p _
    by_cases hp : p.path = r.path <;> simp [Function.comp, hp]
  · rw [if_neg h, if_neg h]
    simp

theorem mem_add_paths (s : ProgressStore) (r : PathProgress) (cb : Bool) :
    r.path ∈ (add s r cb).1.progresses.map PathProgress.path := by
  rw [add_paths_map]
  by_cases h : r.path ∈ s.progresses.map PathProgress.path
  · rwa [if_pos h]
  · rw [if_neg h]
    simp

theorem add_preserves_nodup (s : ProgressStore) (r : PathProgress) (cb : Bool)
    (hnd : (s.progresses.map PathProgress.path).Nodup) :
    ((add s r cb).1.progresses.map PathProgress.path).Nodup := by
  rw [add_paths_map]
  by_cases h : r.path ∈ s.progresses.map PathProgress.path
  · rwa [if_pos h]
  · rw [if_neg h]
    simp [List.nodup_append, hnd, h]

theorem remove_progresses (s : ProgressStore) (path : String) :
    (remove s path).1.progresses = s.progresses.filter fun p => p.path ≠ path := rfl

theorem remove_preserves_nodup (s : ProgressStore) (path : String)
    (hnd : (s.progresses.map PathProgress.path).Nodup) :
    ((remove s path).1.progresses.map PathProgress.path).Nodup := by
  rw [remove_progresses]
  exact List.Nodup.sublist ((List.filter_sublist s.progresses).map PathProgress.path) hnd

theorem applyAddRemove_preserves_nodup (ops : List StoreOp) :
    ∀ s : ProgressStore, (s.progresses.map PathProgress.path).Nodup →
      ((applyAddRemove s ops).progresses.map PathProgress.path).Nodup := by
  induction ops with
  | nil => exact fun s h => h
  | cons op rest ih =>
      intro s h
      cases op with
      | addOp r cb => exact ih _ (add_preserves_nodup s r cb h)
      | removeOp p => exact ih _ (remove_preserves_nodup s p h)
      | subscribeOp id => exact ih _ h
      | unsubscribeOp id => exact ih _ h
      | tickOp res => exact ih _ h
      | checkOp res => exact ih _ h

/-- C7: `add` is idempotent per path — a second `add` for an already
tracked path updates the record in place (same record count, the
record's progress replaced by the new value) rather than inserting a
second one, and after any sequence of `add`/`remove` calls starting from
a fresh store the tracked records never contain two entries with the
same path. -/
theorem add_remove_no_duplicate_paths (gcb : Bool) (ops : List StoreOp)
    (s : ProgressStore) (r1 r2 : PathProgress) (cb1 cb2 : Bool) :
    ((applyAddRemove (initStore gcb) ops).progresses.map PathProgress.path).Nodup
    ∧ (r2.path = r1.path →
        (add (add s r1 cb1).1 r2 cb2).1.progresses.length
            = (add s r1 cb1).1.progresses.length
        ∧ ∀ q ∈ (add (add s r1 cb1).1 r2 cb2).1.progresses,
            q.path = r1.path → q.progress = r2.progress) := by
  constructor
  · exact applyAddRemove_preserves_nodup ops (initStore gcb) (by simp [initStore])
  · intro hpath
    have hmem : r2.path ∈ (add s r1 cb1).1.progresses.map PathProgress.path := by
      rw [hpath]
      exact mem_add_paths s r1 cb1
    have hsnd : (add (add s r1 cb1).1 r2 cb2).1.progresses =
        (add s r1 cb1).1.progresses.map fun p =>
          if p.path = r2.path then { p with progress := r2.progress } else p := by
      rw [add_progresses, if_pos hmem]
    constructor
    · rw [hsnd, List.length_map]
    · intro q hq hqpath
      rw [hsnd] at hq
      rcases List.mem_map.mp hq with ⟨p, _, hpq⟩
      by_cases hp : p.path = r2.path
      · rw [← hpq, if_pos hp]
      · rw [← hpq, if_neg hp] at hqpath ⊢
        exact absurd (hqpath.trans hpath.symm) hp

/-- Witness for C7: an add/add/remove sequence from a fresh store keeps
paths unique, and re-adding path `x` keeps a single record. -/
theorem add_remove_no_duplicate_paths_witness :
    ((applyAddRemove (initStore false)
        [.addOp { path := "x", progress := .done } true,
         .addOp { path := "y", progress := .done } false,
         .removeOp "x"]).progresses.map PathProgress.path).Nodup
    ∧ (add (add (initStore false) { path := "x", progress := .done } true).1
          { path := "x", progress := .inFlight 3 4 } false).1.progresses.length
        = (add (initStore false) { path := "x", progress := .done } true).1.progresses.length :=
  ⟨(add_remove_no_duplicate_paths false
      [.addOp { path := "x", progress := .done } true,
       .addOp { path := "y", progress := .done } false,
       .removeOp "x"] (initStore false)
      { path := "x", progress := .done } { path := "x", progress := .inFlight 3 4 }
      true false).1,
   ((add_remove_no_duplicate_paths false
      [.addOp { path := "x", progress := .done } true,
       .addOp { path := "y", progress := .done } false,
       .removeOp "x"] (initStore false)
      { path := "x", progress := .done } { path := "x", progress := .inFlight 3 4 }
      true false).2 rfl).1⟩

/-- C10: `subscribe` never touches the timer, and a stopped timer starts
running only through `add` or through a `check` whose poll result is
non-empty — no other operation (subscribing, unsubscribing, removing, or
a tick on a stopped store) turns the timer on. -/
theorem subscribe_never_starts_timer (s : ProgressStore) (op : StoreOp) (id : Nat) :
    (subscribe s id).1.interval = s.interval
    ∧ (s.interval = false → (stepStore s op).1.interval = true →
        (∃ r cb, op = .addOp r cb)
        ∨ ∃ ps, op = .checkOp (.ok ps) ∧ ps ≠ []) := by
  refine ⟨rfl, ?_⟩
  intro hstop hrun
  cases op with
  | subscribeOp i =>
      simp only [stepStore, subscribe] at hrun
      exact absurd hrun (by simp [hstop])
  | unsubscribeOp i =>
      simp only [stepStore, unsubscribe] at hrun
      split at hrun <;> simp_all
  | addOp r cb => exact Or.inl ⟨r, cb, rfl⟩
  | removeOp p =>
      simp only [stepStore, remove, setProgresses] at hrun
      exact absurd hrun (by simp [hstop])
  | tickOp res =>
      simp only [stepStore, tick, hstop] at hrun
      exact absurd hrun (by simp [hstop])
  | checkOp res =>
      cases res with
      | error e =>
          simp only [stepStore, check] at hrun
          exact absurd hrun (by simp [hstop])
      | ok ps =>
          refine Or.inr ⟨ps, rfl, ?_⟩
          intro hnil
          subst hnil
          simp [stepStore, check, setProgresses] at hrun

/-- Witness for C10: subscribing to an idle fresh store leaves the timer
state unchanged, while a successful non-empty `check` is one of the two
permitted ways a stopped timer starts. -/
theorem subscribe_never_starts_timer_witness :
    (subscribe (initStore false) 3).1.interval = (initStore false).interval
    ∧ ((∃ r cb,
          StoreOp.checkOp (.ok [{ path := "a", progress := Progress.done }])
            = StoreOp.addOp r cb)
        ∨ ∃ ps,
            StoreOp.checkOp (.ok [{ path := "a", progress := Progress.done }])
              = StoreOp.checkOp (.ok ps) ∧ ps ≠ []) :=
  ⟨(subscribe_never_starts_timer (initStore false)
      (.checkOp (.ok [{ path := "a", progress := Progress.done }])) 3).1,
   (subscribe_never_starts_timer (initStore false)
      (.checkOp (.ok [{ path := "a", progress := Progress.done }])) 3).2
      rfl (by decide)⟩

end Fsync
